import Mathlib

/-!
Verification of the terraform `Executor` component (`terraform/executor.go`)
of the bosh-bootloader repository, as a shallow embedding in Lean 4.

The embedding models:
* the Go `path/filepath` operations `Clean`, `Join` and `Rel` used by the
  executor (Unix separator, no volume names);
* the string helpers `strings.HasSuffix`, `strings.TrimSuffix`,
  `strings.Replace`, `strings.Join` used by the executor;
* the leftmost greedy matching of the regular expression `\d+.\d+.\d+`
  (note: the dots in the source pattern are unescaped, so they match any
  character except a newline, following RE2 semantics for `.`);
* the `Executor` methods `Init`, `Apply`, `Destroy`, `Version`, `Output`,
  `Outputs`, `IsPaved`, `runTFCommand(WithEnvs)` and the pure helper
  `formatVars`.  External collaborators (the state store, the filesystem
  and the process runner) are modelled as oracle fields of an `Env`
  record; each method returns its Go result together with the trace of
  process-runner invocations it made, in order.
-/

namespace Bbl

/-! ## Go string primitives -/

/-- `strings.HasSuffix(s, suffix)`. -/
def goHasSuffix (s suffix : String) : Bool :=
  List.isSuffixOf suffix.data s.data

/-- `strings.TrimSuffix(s, suffix)`: removes one occurrence of the suffix,
if present. -/
def goTrimSuffix (s suffix : String) : String :=
  if goHasSuffix s suffix then ⟨s.data.take (s.data.length - suffix.data.length)⟩
  else s

/-! ## Go `path/filepath` model (Unix rules, as used by the executor) -/

/-- Split a character list into `/`-separated components (helper for
`pathComps`). -/
def splitSlashAux : List Char → List Char → List (List Char)
  | [], cur => [cur.reverse]
  | c :: rest, cur =>
    if c = '/' then cur.reverse :: splitSlashAux rest []
    else splitSlashAux rest (c :: cur)

/-- The `/`-separated components of a path string. -/
def pathComps (p : String) : List String :=
  (splitSlashAux p.data []).map String.mk

/-- The element-processing loop of `filepath.Clean`: `..` pops the previous
element (except at the root of a rooted path, and except after an
unmatched leading `..` of an unrooted path). The accumulator holds the
output elements in reverse. -/
def cleanCompsAux (rooted : Bool) : List String → List String → List String
  | acc, [] => acc.reverse
  | acc, c :: rest =>
    if c = ".." then
      match acc with
      | [] => cleanCompsAux rooted (if rooted then [] else [".."]) rest
      | h :: t =>
        if h = ".." then cleanCompsAux rooted (".." :: h :: t) rest
        else cleanCompsAux rooted t rest
    else cleanCompsAux rooted (c :: acc) rest

/-- `filepath.Clean` for Unix paths. -/
def clean (p : String) : String :=
  if p = "" then "."
  else
    let rooted := p.data.head? = some '/'
    let comps := (pathComps p).filter (fun c => c ≠ "" ∧ c ≠ ".")
    let out := cleanCompsAux rooted [] comps
    let s := String.intercalate "/" out
    if rooted then "/" ++ s
    else if s = "" then "." else s

/-- `filepath.Join` restricted to two arguments, as used by the executor:
joins the non-empty elements with the separator and cleans the result. -/
def join2 (a b : String) : String :=
  if a ≠ "" then clean (a ++ "/" ++ b)
  else if b ≠ "" then clean b
  else ""

/-- Strip the common leading components of two component lists (the
element-matching loop of `filepath.Rel`). -/
def stripCommon : List String → List String → List String × List String
  | b :: bs, t :: ts =>
    if b = t then stripCommon bs ts else (b :: bs, t :: ts)
  | bs, ts => (bs, ts)

/-- `filepath.Rel(basepath, targpath)` for Unix paths without volume
names. Errors (with the message produced by the Go source) when one path
is rooted and the other is not, or when the base retains a leading `..`
after cleaning. -/
def goRel (basepath targpath : String) : Except String String :=
  let relError : Except String String :=
    Except.error ("Rel: can't make " ++ targpath ++ " relative to " ++ basepath)
  let base := clean basepath
  let targ := clean targpath
  if targ = base then Except.ok "."
  else
    let base := if base = "." then "" else base
    let baseSlashed := base.data.head? = some '/'
    let targSlashed := targ.data.head? = some '/'
    if baseSlashed ≠ targSlashed then relError
    else
      let bcomps := if base = "" then [] else pathComps base
      let tcomps := pathComps targ
      let p := stripCommon bcomps tcomps
      if p.1.head? = some ".." then relError
      else if p.1 ≠ [] then
        Except.ok (String.intercalate "/" (List.replicate p.1.length ".." ++ p.2))
      else
        Except.ok (String.intercalate "/" p.2)

/-! ## The regular expression `\d+.\d+.\d+` of `Version`

The dots in the source pattern are unescaped, so each matches any single
character other than a newline.  `FindString` returns the leftmost match,
choosing longer repetitions first (greedy), with backtracking. -/

/-- All splits `(d, r)` of `l` with `d` a non-empty all-digit prefix,
longest `d` first (the candidate matches of a greedy `\d+`). -/
def digitSplits (l : List Char) : List (List Char × List Char) :=
  let k := (l.takeWhile Char.isDigit).length
  (List.range k).map (fun i => (l.take (k - i), l.drop (k - i)))

/-- First successful application of `f` along a list (the backtracking
order of the matcher: earlier alternatives are preferred). -/
def firstSome {α β : Type} (f : α → Option β) : List α → Option β
  | [] => none
  | a :: as =>
    match f a with
    | some b => some b
    | none => firstSome f as

/-- Attempt to complete a match after the first separator: given a split
`(d₂, r₃)` of the remainder into the second digit run and the rest,
require one non-newline character followed by a final greedy digit run. -/
def matchTail2 : List Char × List Char → Option (List Char × Char × List Char)
  | (_, []) => none
  | (d₂, c₂ :: r₄) =>
    if c₂ = '\n' then none
    else match digitSplits r₄ with
      | [] => none
      | s₃ :: _ => some (d₂, c₂, s₃.1)

/-- Attempt to complete a match after the first digit run: given a split
`(d₁, r₁)` of the input, require one non-newline character and then the
second half of the pattern, preferring longer second digit runs. -/
def matchTail1 : List Char × List Char → Option (List Char)
  | (_, []) => none
  | (d₁, c₁ :: r₂) =>
    if c₁ = '\n' then none
    else match firstSome matchTail2 (digitSplits r₂) with
      | none => none
      | some (d₂, c₂, d₃) => some (d₁ ++ c₁ :: d₂ ++ c₂ :: d₃)

/-- Match `\d+.\d+.\d+` at the start of `l` (greedy, with backtracking),
returning the matched characters. -/
def matchTripleAt (l : List Char) : Option (List Char) :=
  firstSome matchTail1 (digitSplits l)

/-- Leftmost match of `\d+.\d+.\d+` in `l` (the behaviour of
`regexp.FindString`). -/
def findTriple : List Char → Option (List Char)
  | [] => none
  | c :: rest =>
    match matchTripleAt (c :: rest) with
    | some m => some m
    | none => findTriple rest

/-- `regexp.MustCompile("\d+.\d+.\d+").FindString` on a string, returning
`none` in place of the empty no-match result (the pattern cannot match the
empty string). -/
def findDigitTriple (s : String) : Option String :=
  (findTriple s.data).map (fun l => ⟨l⟩)

/-- A non-empty list of decimal digits (`\d+`). -/
def DigitsNE (l : List Char) : Prop := l ≠ [] ∧ ∀ c ∈ l, c.isDigit

/-- The shape actually matched by the source pattern `\d+.\d+.\d+`:
digits, any non-newline character, digits, any non-newline character,
digits. -/
def TripleShaped (l : List Char) : Prop :=
  ∃ d₁ c₁ d₂ c₂ d₃, DigitsNE d₁ ∧ DigitsNE d₂ ∧ DigitsNE d₃ ∧
    c₁ ≠ '\n' ∧ c₂ ≠ '\n' ∧ l = d₁ ++ c₁ :: d₂ ++ c₂ :: d₃

/-- The shape the specification describes: digits, a literal dot, digits,
a literal dot, digits (`\d+\.\d+\.\d+`). -/
def SemverShaped (l : List Char) : Prop :=
  ∃ d₁ d₂ d₃, DigitsNE d₁ ∧ DigitsNE d₂ ∧ DigitsNE d₃ ∧
    l = d₁ ++ '.' :: d₂ ++ '.' :: d₃

/-! ## The variable formatter `formatVars` -/

/-- The value types the data model admits for a terraform input variable:
a scalar string or a list of strings. -/
inductive VarValue where
  | str : String → VarValue
  | strList : List String → VarValue

/-- `strings.Replace(s, "\n", "\\n", -1)` at the character level. -/
def escListNl : List Char → List Char
  | [] => []
  | c :: rest =>
    if c = '\n' then '\\' :: 'n' :: escListNl rest else c :: escListNl rest

/-- `strings.Replace(s, "\n", "\\n", -1)`. -/
def goReplaceNl (s : String) : String := ⟨escListNl s.data⟩

/-- One value as rendered by `formatVars`: scalar strings are wrapped in
double quotes and embedded newlines are escaped; string lists become a
bracketed, comma-separated, double-quoted sequence. -/
def renderVarValue : VarValue → String
  | .str s =>
    let vString := "\"" ++ s ++ "\""
    if vString.data.contains '\n' then goReplaceNl vString else vString
  | .strList l => "[\"" ++ String.intercalate "\",\"" l ++ "\"]"

/-- `formatVars`: each entry is appended as `"\n" ++ name ++ "=" ++ value`
onto the accumulated text, which starts empty. The input list models one
iteration order of the Go map. -/
def formatVars (inputs : List (String × VarValue)) : String :=
  inputs.foldl (fun acc nv => acc ++ "\n" ++ nv.1 ++ "=" ++ renderVarValue nv.2) ""

/-! ## The executor -/

/-- The fixed replacement message used when a subprocess failure is
redacted. -/
def redactedError : String :=
  "Some output has been redacted, use `bbl latest-error` to see it or run again with --debug for additional debug output"

/-- One invocation of the process runner: whether stdout was captured into
an in-memory buffer (`toBuffer = true`) or streamed to the terminal, the
working directory, the argument list, the environment overrides (`none`
for `Run`, `some envs` for `RunWithEnv`) and the debug flag. -/
structure RunCall where
  toBuffer : Bool
  dir : String
  args : List String
  envs : Option (List String)
  debug : Bool
deriving DecidableEq

/-- One decoded entry of `terraform output --json`
(the `tfOutput` struct). -/
structure TfOut where
  sensitive : Bool
  type : String
  value : String
deriving DecidableEq

/-- The external collaborators of the executor: the state store
(`getTerraformDir`, `getVarsDir`), the filesystem (`statTfstate` is true
iff `Stat` of `terraform.tfstate` in the vars directory succeeds;
`readVarsDir` lists the vars directory), the process runner (`exec` maps
an invocation to an error or to the text it writes to the given sink) and
the JSON decoder (`unmarshalOutputs`). -/
structure Env where
  getTerraformDir : Except String String
  getVarsDir : Except String String
  statTfstate : Bool
  readVarsDir : Except String (List String)
  exec : RunCall → Except String String
  unmarshalOutputs : String → Except String (List (String × TfOut))

/-- The executor's own state: the debug flag given at construction. -/
structure Executor where
  debug : Bool

deriving instance DecidableEq for Except

/-- The `-var-file` accumulation loop of `runTFCommandWithEnvs`: for every
vars-directory entry whose name ends in `.tfvars`, appends `-var-file`
followed by the entry's path relative to the terraform directory. -/
def varFileArgsLoop (terraformDir varsDir : String) : List String → Except String (List String)
  | [] => Except.ok []
  | name :: rest =>
    if goHasSuffix name ".tfvars" then
      match goRel terraformDir (join2 varsDir name) with
      | Except.error err => Except.error ("Get relative terraform vars path: " ++ err)
      | Except.ok p =>
        match varFileArgsLoop terraformDir varsDir rest with
        | Except.error e => Except.error e
        | Except.ok r => Except.ok ("-var-file" :: p :: r)
    else varFileArgsLoop terraformDir varsDir rest

/-- `runTFCommandWithEnvs`: appends `-state <relative state path>` and the
`-var-file` pairs to the given arguments, runs the command via
`RunWithEnv`, and applies the redaction policy to a runner failure.
Returns the Go error (if any) and the trace of runner invocations. -/
def Executor.runTFCommandWithEnvs (e : Executor) (env : Env) (args envs : List String) :
    Option String × List RunCall :=
  match env.getVarsDir with
  | Except.error err => (some err, [])
  | Except.ok varsDir =>
    let tfStatePath := join2 varsDir "terraform.tfstate"
    match env.getTerraformDir with
    | Except.error err => (some err, [])
    | Except.ok terraformDir =>
      match goRel terraformDir tfStatePath with
      | Except.error err => (some ("Get relative terraform state path: " ++ err), [])
      | Except.ok relativeStatePath =>
        match env.readVarsDir with
        | Except.error err => (some ("Read contents of vars directory: " ++ err), [])
        | Except.ok varsFiles =>
          match varFileArgsLoop terraformDir varsDir varsFiles with
          | Except.error err => (some err, [])
          | Except.ok extra =>
            let call : RunCall :=
              ⟨false, terraformDir, args ++ ["-state", relativeStatePath] ++ extra,
                some envs, e.debug⟩
            match env.exec call with
            | Except.error err => (some (if e.debug then err else redactedError), [call])
            | Except.ok _ => (none, [call])

/-- `runTFCommand`: `runTFCommandWithEnvs` with an empty environment
override list. -/
def Executor.runTFCommand (e : Executor) (env : Env) (args : List String) :
    Option String × List RunCall :=
  e.runTFCommandWithEnvs env args []

/-- `Apply`: `apply --auto-approve` plus one `-var key=value` pair per
credential, through the shared command logic. -/
def Executor.Apply (e : Executor) (env : Env) (credentials : List (String × String)) :
    Option String × List RunCall :=
  e.runTFCommand env
    (["apply", "--auto-approve"] ++
      credentials.flatMap (fun kv => ["-var", kv.1 ++ "=" ++ kv.2]))

/-- `Destroy`: `destroy -force` plus `-var` pairs, with the
`TF_WARN_OUTPUT_ERRORS=1` environment override. -/
def Executor.Destroy (e : Executor) (env : Env) (credentials : List (String × String)) :
    Option String × List RunCall :=
  e.runTFCommandWithEnvs env
    (["destroy", "-force"] ++
      credentials.flatMap (fun kv => ["-var", kv.1 ++ "=" ++ kv.2]))
    ["TF_WARN_OUTPUT_ERRORS=1"]

/-- `Init`: runs `init` in the terraform directory with the executor's
debug flag; a runner failure is wrapped with the `Run terraform init: `
prefix. -/
def Executor.Init (e : Executor) (env : Env) : Option String × List RunCall :=
  match env.getTerraformDir with
  | Except.error err => (some err, [])
  | Except.ok terraformDir =>
    let call : RunCall := ⟨false, terraformDir, ["init"], none, e.debug⟩
    match env.exec call with
    | Except.error err => (some ("Run terraform init: " ++ err), [call])
    | Except.ok _ => (none, [call])

/-- `Version`: runs `version` into a buffer in the fixed directory `/tmp`
with debug `true`; a runner failure is returned unmodified; otherwise the
leftmost `\d+.\d+.\d+` match of the captured text is returned, or a parse
error when there is none. -/
def Executor.Version (e : Executor) (env : Env) : Except String String × List RunCall :=
  let call : RunCall := ⟨true, "/tmp", ["version"], none, true⟩
  match env.exec call with
  | Except.error err => (Except.error err, [call])
  | Except.ok versionOutput =>
    match findDigitTriple versionOutput with
    | none => (Except.error "Terraform version could not be parsed", [call])
    | some v => (Except.ok v, [call])

/-- `Output`: runs `init` (streamed, executor debug flag), then
`output <name>` into a buffer (debug `true`), adding
`-state <varsDir>/terraform.tfstate` exactly when the stat of the state
file succeeds; one trailing newline is stripped from the captured text. -/
def Executor.Output (e : Executor) (env : Env) (outputName : String) :
    Except String String × List RunCall :=
  match env.getTerraformDir with
  | Except.error err => (Except.error err, [])
  | Except.ok terraformDir =>
  match env.getVarsDir with
  | Except.error err => (Except.error err, [])
  | Except.ok varsDir =>
    let initCall : RunCall := ⟨false, terraformDir, ["init"], none, e.debug⟩
    match env.exec initCall with
    | Except.error err =>
      (Except.error ("Run terraform init in terraform dir: " ++ err), [initCall])
    | Except.ok _ =>
      let args := ["output", outputName] ++
        (if env.statTfstate then ["-state", join2 varsDir "terraform.tfstate"] else [])
      let call : RunCall := ⟨true, terraformDir, args, none, true⟩
      match env.exec call with
      | Except.error err =>
        (Except.error ("Run terraform output -state: " ++ err), [initCall, call])
      | Except.ok out => (Except.ok (goTrimSuffix out "\n"), [initCall, call])

/-- `Outputs`: runs `init` (streamed, debug fixed to `false`), then
`output --json` into a buffer (debug `true`) with the same conditional
`-state` pointer; the captured JSON is decoded and only the `Value` of
each entry is kept. -/
def Executor.Outputs (e : Executor) (env : Env) :
    Except String (List (String × String)) × List RunCall :=
  match env.getTerraformDir with
  | Except.error err => (Except.error err, [])
  | Except.ok terraformDir =>
  match env.getVarsDir with
  | Except.error err => (Except.error err, [])
  | Except.ok varsDir =>
    let initCall : RunCall := ⟨false, terraformDir, ["init"], none, false⟩
    match env.exec initCall with
    | Except.error err =>
      (Except.error ("Run terraform init in terraform dir: " ++ err), [initCall])
    | Except.ok _ =>
      let args := ["output", "--json"] ++
        (if env.statTfstate then ["-state", join2 varsDir "terraform.tfstate"] else [])
      let call : RunCall := ⟨true, terraformDir, args, none, true⟩
      match env.exec call with
      | Except.error err =>
        (Except.error ("Run terraform output --json in vars dir: " ++ err), [initCall, call])
      | Except.ok out =>
        match env.unmarshalOutputs out with
        | Except.error err =>
          (Except.error ("Unmarshal terraform output: " ++ err), [initCall, call])
        | Except.ok tfOutputs =>
          (Except.ok (tfOutputs.map (fun kv => (kv.1, kv.2.value))), [initCall, call])

/-- `IsPaved`: runs `init` (streamed, debug fixed to `false`), then `show`
into a buffer (debug `true`) with the same conditional `-state` pointer;
returns `false` exactly when the captured text is the literal
`"No state."`. -/
def Executor.IsPaved (e : Executor) (env : Env) :
    Except String Bool × List RunCall :=
  match env.getTerraformDir with
  | Except.error err => (Except.error err, [])
  | Except.ok terraformDir =>
    let initCall : RunCall := ⟨false, terraformDir, ["init"], none, false⟩
    match env.exec initCall with
    | Except.error err =>
      (Except.error ("Run terraform init in terraform dir: " ++ err), [initCall])
    | Except.ok _ =>
    match env.getVarsDir with
    | Except.error err => (Except.error err, [initCall])
    | Except.ok varsDir =>
      let args := ["show"] ++
        (if env.statTfstate then ["-state", join2 varsDir "terraform.tfstate"] else [])
      let call : RunCall := ⟨true, terraformDir, args, none, true⟩
      match env.exec call with
      | Except.error err =>
        (Except.error ("Run terraform show: " ++ err), [initCall, call])
      | Except.ok out =>
        if out = "No state." then (Except.ok false, [initCall, call])
        else (Except.ok true, [initCall, call])

/-- The relative path the shared command logic would compute for a vars
file, with an irrelevant default in the error case (used only where the
computation is known to succeed). -/
def relPath (terraformDir varsDir name : String) : String :=
  match goRel terraformDir (join2 varsDir name) with
  | Except.ok p => p
  | Except.error _ => ""

/-! ## Concrete environments used by the witnesses -/

/-- A fully healthy environment: both directories resolve, the state file
exists, the vars directory holds two `.tfvars` files and one other file,
and every subprocess succeeds with output `"out\n"`. -/
def envOk : Env :=
  { getTerraformDir := Except.ok "/a/terraform"
    getVarsDir := Except.ok "/a/vars"
    statTfstate := true
    readVarsDir := Except.ok ["a.tfvars", "b.tfvars", "notes.txt"]
    exec := fun _ => Except.ok "out\n"
    unmarshalOutputs := fun _ => Except.ok [] }

/-- `envOk` with the stat of `terraform.tfstate` failing. -/
def envNoState : Env := { envOk with statTfstate := false }

/-- `envOk` with every subprocess failing with the message `"boom"`. -/
def envFail : Env := { envOk with exec := fun _ => Except.error "boom" }

/-- `envOk` with every subprocess writing the given text. -/
def envOut (s : String) : Env := { envOk with exec := fun _ => Except.ok s }

/-- `envOk` where `init` succeeds but every other subprocess fails with
the message `"boom"`. -/
def envMixed : Env :=
  { envOk with
    exec := fun c => if c.args = ["init"] then Except.ok "" else Except.error "boom" }

/-! ## Generic helper lemmas -/

/-- If `firstSome` fails, the function fails on every element. -/
theorem firstSome_eq_none_mem {α β : Type} {f : α → Option β} :
    ∀ {l : List α}, firstSome f l = none → ∀ a ∈ l, f a = none := by
  intro l
  induction l with
  | nil => intro _ a ha; cases ha
  | cons x xs ih =>
    intro h a ha
    rcases hx : f x with _ | b
    · simp only [firstSome, hx] at h
      rcases List.mem_cons.mp ha with rfl | ha'
      · exact hx
      · exact ih h a ha'
    · simp only [firstSome, hx] at h
      cases h

/-- If `firstSome` succeeds, some element produced that result. -/
theorem exists_of_firstSome_some {α β : Type} {f : α → Option β} :
    ∀ {l : List α} {b : β}, firstSome f l = some b → ∃ a ∈ l, f a = some b := by
  intro l
  induction l with
  | nil => intro b h; cases h
  | cons x xs ih =>
    intro b h
    rcases hx : f x with _ | b'
    · simp only [firstSome, hx] at h
      obtain ⟨a, ha, hfa⟩ := ih h
      exact ⟨a, List.mem_cons_of_mem _ ha, hfa⟩
    · simp only [firstSome, hx] at h
      exact ⟨x, List.mem_cons_self _ _, by rw [hx, h]⟩

/-! ## Lemmas about the `\d+.\d+.\d+` matcher -/

/-- Every member of `digitSplits l` is a split of `l` whose left part is a
non-empty run of digits. -/
theorem digitSplits_sound {l d r : List Char} (h : (d, r) ∈ digitSplits l) :
    l = d ++ r ∧ d ≠ [] ∧ ∀ c ∈ d, c.isDigit := by
  unfold digitSplits at h
  obtain ⟨i, hi, heq⟩ := List.mem_map.mp h
  rw [List.mem_range] at hi
  injection heq with hd hr
  have hkle : ((l.takeWhile Char.isDigit).length) ≤ l.length :=
    (List.takeWhile_prefix Char.isDigit).length_le
  refine ⟨by rw [← hd, ← hr, List.take_append_drop], ?_, ?_⟩
  · rw [← hd]
    intro hnil
    have := congrArg List.length hnil
    rw [List.length_take] at this
    simp only [List.length_nil] at this
    omega
  · intro c hc
    rw [← hd] at hc
    have hle : (l.takeWhile Char.isDigit).length - i ≤ (l.takeWhile Char.isDigit).length := by
      omega
    have hpre : l.take ((l.takeWhile Char.isDigit).length - i) <+: l.takeWhile Char.isDigit := by
      refine List.prefix_of_prefix_length_le (List.take_prefix _ _)
        (List.takeWhile_prefix _) ?_
      rw [List.length_take]
      omega
    exact List.mem_takeWhile_imp (hpre.subset hc)

/-- The length of an all-digit prefix never exceeds the length of the
digit `takeWhile`. -/
theorem length_le_takeWhile_append {p : Char → Bool} :
    ∀ (d r : List Char), (∀ c ∈ d, p c) → d.length ≤ ((d ++ r).takeWhile p).length := by
  intro d
  induction d with
  | nil => intro r _; simp
  | cons c cs ih =>
    intro r h
    have hc : p c := h c (List.mem_cons_self _ _)
    rw [List.cons_append, List.takeWhile_cons, if_pos hc]
    simpa using ih r (fun x hx => h x (List.mem_cons_of_mem _ hx))

/-- Every split of `l` into a non-empty all-digit prefix and the rest is a
member of `digitSplits l`. -/
theorem digitSplits_complete {d r : List Char} (hne : d ≠ [])
    (hd : ∀ c ∈ d, c.isDigit) : (d, r) ∈ digitSplits (d ++ r) := by
  unfold digitSplits
  have hdk : d.length ≤ (((d ++ r)).takeWhile Char.isDigit).length :=
    length_le_takeWhile_append d r hd
  have hd1 : 1 ≤ d.length := List.length_pos.mpr hne
  refine List.mem_map.mpr
    ⟨(((d ++ r)).takeWhile Char.isDigit).length - d.length,
      List.mem_range.mpr (by omega), ?_⟩
  have hkk : (((d ++ r)).takeWhile Char.isDigit).length -
      ((((d ++ r)).takeWhile Char.isDigit).length - d.length) = d.length := by omega
  rw [hkk, List.take_left, List.drop_left]

/-- A successful `matchTail2` returns its digit run, the separator and a
final digit run that starts the rest. -/
theorem matchTail2_some {d₂ r₃ : List Char} {a b : List Char} {c₂ : Char}
    (h : matchTail2 (d₂, r₃) = some (a, c₂, b)) :
    a = d₂ ∧ c₂ ≠ '\n' ∧ b ≠ [] ∧ (∀ c ∈ b, c.isDigit) ∧ ∃ tail, r₃ = c₂ :: (b ++ tail) := by
  rcases r₃ with _ | ⟨c, r₄⟩
  · cases h
  · rw [matchTail2] at h
    by_cases hc : c = '\n'
    · rw [if_pos hc] at h; cases h
    · rw [if_neg hc] at h
      rcases hds : digitSplits r₄ with _ | ⟨s₃, tail'⟩ <;> rw [hds] at h
      · cases h
      · have hs₃ : (s₃.1, s₃.2) ∈ digitSplits r₄ := by
          rw [hds]
          exact Prod.mk.eta.symm ▸ List.mem_cons_self _ _
        obtain ⟨hl₃, hne₃, hdig₃⟩ := digitSplits_sound hs₃
        injection h with h'
        obtain ⟨ha, hc₂, hb⟩ : d₂ = a ∧ c = c₂ ∧ s₃.1 = b := by
          simpa using h'
        subst ha; subst hc₂; subst hb
        exact ⟨rfl, hc, hne₃, hdig₃, s₃.2, by rw [hl₃]⟩

/-- A successful `matchTail1` returns a `TripleShaped` string built from
its digit run and a prefix of the rest. -/
theorem matchTail1_some {d₁ r₁ m : List Char} (h : matchTail1 (d₁, r₁) = some m) :
    ∃ c₁ d₂ c₂ d₃ rest, c₁ ≠ '\n' ∧ c₂ ≠ '\n' ∧ DigitsNE d₂ ∧ DigitsNE d₃ ∧
      m = d₁ ++ c₁ :: d₂ ++ c₂ :: d₃ ∧ r₁ = c₁ :: (d₂ ++ (c₂ :: (d₃ ++ rest))) := by
  rcases r₁ with _ | ⟨c₁, r₂⟩
  · cases h
  · rw [matchTail1] at h
    by_cases hc : c₁ = '\n'
    · rw [if_pos hc] at h; cases h
    · rw [if_neg hc] at h
      rcases hfs : firstSome matchTail2 (digitSplits r₂) with _ | ⟨d₂, c₂, d₃⟩ <;>
        rw [hfs] at h
      · cases h
      · injection h with h'
        obtain ⟨⟨a, r₃⟩, hs₂, h2⟩ := exists_of_firstSome_some hfs
        obtain ⟨hl₂, hne₂, hdig₂⟩ := digitSplits_sound hs₂
        obtain ⟨ha, hc₂, hne₃, hdig₃, tail, hr₃⟩ := matchTail2_some h2
        subst ha
        refine ⟨c₁, d₂, c₂, d₃, tail, hc, hc₂, ⟨hne₂, hdig₂⟩, ⟨hne₃, hdig₃⟩,
          h'.symm, ?_⟩
        rw [hl₂, hr₃]

/-- A successful `matchTripleAt` returns a `TripleShaped` prefix of its
input. -/
theorem matchTripleAt_some {l m : List Char} (h : matchTripleAt l = some m) :
    TripleShaped m ∧ ∃ rest, l = m ++ rest := by
  unfold matchTripleAt at h
  obtain ⟨⟨d₁, r₁⟩, hs₁, h1⟩ := exists_of_firstSome_some h
  obtain ⟨hl₁, hne₁, hdig₁⟩ := digitSplits_sound hs₁
  obtain ⟨c₁, d₂, c₂, d₃, rest, hc₁, hc₂, hd₂, hd₃, hm, hr₁⟩ := matchTail1_some h1
  refine ⟨⟨d₁, c₁, d₂, c₂, d₃, ⟨hne₁, hdig₁⟩, hd₂, hd₃, hc₁, hc₂, hm⟩, rest, ?_⟩
  rw [hl₁, hr₁, hm]
  simp

/-- `matchTail2` succeeds on any split whose rest starts with a
non-newline character followed by digits. -/
theorem matchTail2_of_shape {d₂ d₃ rest : List Char} {c₂ : Char}
    (h₃ : DigitsNE d₃) (hc₂ : c₂ ≠ '\n') :
    matchTail2 (d₂, c₂ :: (d₃ ++ rest)) ≠ none := by
  rw [matchTail2, if_neg hc₂]
  rcases hds : digitSplits (d₃ ++ rest) with _ | ⟨s₃, tail⟩
  · exact absurd hds (List.ne_nil_of_mem (digitSplits_complete h₃.1 h₃.2))
  · simp

/-- `matchTripleAt` succeeds on any list starting with digits, a
non-newline character, digits, a non-newline character and digits. -/
theorem matchTripleAt_of_shape {d₁ d₂ d₃ : List Char} {c₁ c₂ : Char} {rest : List Char}
    (h₁ : DigitsNE d₁) (h₂ : DigitsNE d₂) (h₃ : DigitsNE d₃)
    (hc₁ : c₁ ≠ '\n') (hc₂ : c₂ ≠ '\n') :
    matchTripleAt (d₁ ++ (c₁ :: (d₂ ++ (c₂ :: (d₃ ++ rest))))) ≠ none := by
  intro h
  have hall := firstSome_eq_none_mem h (d₁, c₁ :: (d₂ ++ (c₂ :: (d₃ ++ rest))))
    (digitSplits_complete h₁.1 h₁.2)
  rw [matchTail1, if_neg hc₁] at hall
  rcases hfs : firstSome matchTail2 (digitSplits (d₂ ++ (c₂ :: (d₃ ++ rest)))) with
    _ | trip
  · have hall₂ := firstSome_eq_none_mem hfs (d₂, c₂ :: (d₃ ++ rest))
      (digitSplits_complete h₂.1 h₂.2)
    exact matchTail2_of_shape h₃ hc₂ hall₂
  · rw [hfs] at hall
    rcases trip with ⟨x, y, z⟩
    cases hall

/-- A successful `findTriple` returns a `TripleShaped` infix of its
input. -/
theorem findTriple_some {l m : List Char} (h : findTriple l = some m) :
    TripleShaped m ∧ ∃ pre post, l = pre ++ m ++ post := by
  induction l with
  | nil => cases h
  | cons c rest ih =>
    rw [findTriple] at h
    rcases hm : matchTripleAt (c :: rest) with _ | m' <;> rw [hm] at h
    · obtain ⟨hshape, pre, post, hdec⟩ := ih h
      exact ⟨hshape, c :: pre, post, by rw [List.cons_append, List.cons_append, hdec]⟩
    · injection h with h'
      subst h'
      obtain ⟨hshape, rest', hpre⟩ := matchTripleAt_some hm
      exact ⟨hshape, [], rest', by simpa using hpre⟩

/-- When `findTriple` fails, the input has no `TripleShaped` infix. -/
theorem findTriple_none {l : List Char} (h : findTriple l = none) :
    ¬ ∃ pre mid post, l = pre ++ mid ++ post ∧ TripleShaped mid := by
  induction l with
  | nil =>
    rintro ⟨pre, mid, post, hdec, d₁, c₁, d₂, c₂, d₃, h₁, h₂, h₃, hc₁, hc₂, hmid⟩
    have : mid = [] := by
      rcases List.append_eq_nil.mp hdec.symm with ⟨hl, _⟩
      exact (List.append_eq_nil.mp hl).2
    rw [this] at hmid
    rcases List.append_eq_nil.mp hmid.symm with ⟨hl, _⟩
    exact h₁.1 (List.append_eq_nil.mp hl).1
  | cons c rest ih =>
    rw [findTriple] at h
    rcases hm : matchTripleAt (c :: rest) with _ | m' <;> rw [hm] at h
    · rintro ⟨pre, mid, post, hdec, hshape⟩
      rcases pre with _ | ⟨p, pre'⟩
      · obtain ⟨d₁, c₁, d₂, c₂, d₃, h₁, h₂, h₃, hc₁, hc₂, hmid⟩ := hshape
        have hform : c :: rest = d₁ ++ (c₁ :: (d₂ ++ (c₂ :: (d₃ ++ post)))) := by
          rw [hdec, hmid]
          simp [List.append_assoc]
        rw [hform] at hm
        exact matchTripleAt_of_shape h₁ h₂ h₃ hc₁ hc₂ hm
      · refine ih h ⟨pre', mid, post, ?_, hshape⟩
        rw [List.cons_append, List.cons_append] at hdec
        exact (List.cons.inj hdec).2
    · cases h

/-! ## Lemmas about the variable formatter -/

/-- Escaping never leaves a raw newline behind. -/
theorem escListNl_not_nl : ∀ l : List Char, '\n' ∉ escListNl l := by
  intro l
  induction l with
  | nil => intro h; cases h
  | cons c rest ih =>
    rw [escListNl]
    by_cases hc : c = '\n'
    · rw [if_pos hc]
      intro h
      rcases List.mem_cons.mp h with h1 | h
      · exact absurd h1 (by decide)
      rcases List.mem_cons.mp h with h2 | h
      · exact absurd h2 (by decide)
      · exact ih h
    · rw [if_neg hc]
      intro h
      rcases List.mem_cons.mp h with h1 | h
      · exact hc h1.symm
      · exact ih h

/-- Escaping distributes over append. -/
theorem escListNl_append : ∀ a b : List Char, escListNl (a ++ b) = escListNl a ++ escListNl b := by
  intro a b
  induction a with
  | nil => rfl
  | cons c rest ih =>
    rw [List.cons_append, escListNl, escListNl]
    by_cases hc : c = '\n'
    · rw [if_pos hc, if_pos hc, ih, List.cons_append, List.cons_append]
    · rw [if_neg hc, if_neg hc, ih, List.cons_append]

/-- Escaping a leading newline produces the two-character sequence. -/
theorem escListNl_cons_nl (l : List Char) : escListNl ('\n' :: l) = '\\' :: 'n' :: escListNl l := by
  rw [escListNl, if_pos rfl]

/-- Escaping leaves any non-newline character in place. -/
theorem escListNl_cons_other {c : Char} (h : c ≠ '\n') (l : List Char) :
    escListNl (c :: l) = c :: escListNl l := by
  rw [escListNl, if_neg h]

/-- The characters of the quoted scalar `"\"" ++ s ++ "\""`. -/
theorem quoted_data (s : String) : ("\"" ++ s ++ "\"").data = '"' :: (s.data ++ ['"']) := rfl

/-- A rendered scalar always starts with a quote, ends with a quote, and
contains no raw newline. -/
theorem renderStr_props (s : String) :
    (renderVarValue (VarValue.str s)).data.head? = some '"' ∧
    (renderVarValue (VarValue.str s)).data.getLast? = some '"' ∧
    '\n' ∉ (renderVarValue (VarValue.str s)).data := by
  rw [renderVarValue]
  by_cases hcon : ("\"" ++ s ++ "\"").data.contains '\n'
  · rw [if_pos hcon]
    have hdata : (goReplaceNl ("\"" ++ s ++ "\"")).data
        = '"' :: (escListNl (s.data ++ ['"'])) := by
      show escListNl ("\"" ++ s ++ "\"").data = _
      rw [quoted_data, escListNl_cons_other (by decide)]
    refine ⟨by rw [hdata]; rfl, ?_, ?_⟩
    · rw [hdata, escListNl_append]
      have hq : escListNl ['"'] = ['"'] := rfl
      rw [hq]
      show ((('"' :: escListNl s.data) ++ ['"'])).getLast? = some '"'
      exact List.getLast?_concat _
    · rw [hdata]
      intro h
      rcases List.mem_cons.mp h with h1 | h2
      · exact absurd h1 (by decide)
      · exact escListNl_not_nl _ h2
  · rw [if_neg hcon]
    refine ⟨by rw [quoted_data]; rfl, ?_, ?_⟩
    · rw [quoted_data]
      show ((('"' :: s.data) ++ ['"'])).getLast? = some '"'
      exact List.getLast?_concat _
    · intro hmem
      exact hcon (List.elem_iff.mpr hmem)

/-- Decomposition around an embedded newline: the rendered scalar shows
the escaped two-character sequence in place of the newline. -/
theorem renderStr_decomp (s : String) (l₁ l₂ : List Char) (h : s.data = l₁ ++ '\n' :: l₂) :
    (renderVarValue (VarValue.str s)).data =
      '"' :: (escListNl l₁ ++ '\\' :: 'n' :: (escListNl l₂ ++ ['"'])) := by
  rw [renderVarValue]
  have hcon : ("\"" ++ s ++ "\"").data.contains '\n' = true := by
    apply List.elem_iff.mpr
    rw [quoted_data, h]
    refine List.mem_cons_of_mem _ (List.mem_append.mpr (Or.inl ?_))
    exact List.mem_append.mpr (Or.inr (List.mem_cons_self _ _))
  rw [if_pos hcon]
  show escListNl ("\"" ++ s ++ "\"").data = _
  rw [quoted_data, escListNl_cons_other (by decide), h, List.append_assoc,
    escListNl_append, List.cons_append, escListNl_cons_nl, escListNl_append]
  have : escListNl ['"'] = ['"'] := rfl
  rw [this]

/-- A rendered string list ends with a closing bracket. -/
theorem renderList_last (l : List String) :
    (renderVarValue (VarValue.strList l)).data.getLast? = some ']' := by
  rw [renderVarValue]
  show ((("[\"" ++ String.intercalate "\",\"" l).data ++ ['"', ']'])).getLast? = some ']'
  rw [show (['"', ']'] : List Char) = ['"'] ++ [']'] from rfl, ← List.append_assoc]
  exact List.getLast?_concat _

/-- A rendered value never ends with a newline (it ends with a quote or a
bracket). -/
theorem renderVarValue_last (v : VarValue) :
    (renderVarValue v).data.getLast? = some '"' ∨
    (renderVarValue v).data.getLast? = some ']' := by
  cases v with
  | str s => exact Or.inl (renderStr_props s).2.1
  | strList l => exact Or.inr (renderList_last l)

/-- A list with a last element is non-empty. -/
theorem ne_nil_of_getLast?_some {l : List Char} {a : Char} (h : l.getLast? = some a) :
    l ≠ [] := by
  cases l with
  | nil => cases h
  | cons x xs => exact List.cons_ne_nil _ _

/-- `formatVars` over any accumulator, at the level of characters: each
entry contributes a newline, then the name, `=` and the rendered value. -/
theorem formatVars_foldl_data :
    ∀ (inputs : List (String × VarValue)) (acc : String),
    (inputs.foldl (fun acc nv => acc ++ "\n" ++ nv.1 ++ "=" ++ renderVarValue nv.2) acc).data =
      acc.data ++
        (inputs.map (fun nv => '\n' :: (nv.1.data ++ '=' :: (renderVarValue nv.2).data))).flatten := by
  intro inputs
  induction inputs with
  | nil => intro acc; simp
  | cons nv rest ih =>
    intro acc
    rw [List.foldl_cons, ih, List.map_cons]
    have hx : (acc ++ "\n" ++ nv.1 ++ "=" ++ renderVarValue nv.2).data
        = (((acc.data ++ ['\n']) ++ nv.1.data) ++ ['=']) ++ (renderVarValue nv.2).data := rfl
    rw [hx]
    show _ = acc.data ++ (('\n' :: (nv.1.data ++ '=' :: (renderVarValue nv.2).data)) ++ _)
    simp [List.append_assoc]

/-! ## Lemmas about `goTrimSuffix` and the var-file loop -/

/-- `strings.TrimSuffix(s, "\\n")` removes exactly one trailing newline
when present and changes nothing otherwise. -/
theorem goTrimSuffix_newline (s : String) :
    goTrimSuffix s "\n" =
      if s.data.getLast? = some '\n' then String.mk s.data.dropLast else s := by
  rw [goTrimSuffix]
  by_cases hsuf : goHasSuffix s "\n"
  · rw [if_pos hsuf]
    rw [goHasSuffix] at hsuf
    obtain ⟨t, ht⟩ := List.isSuffixOf_iff_suffix.mp hsuf
    have hdn : ("\n" : String).data = ['\n'] := rfl
    rw [hdn] at ht
    have hlast : s.data.getLast? = some '\n' := by
      rw [← ht]; exact List.getLast?_concat _
    rw [if_pos hlast]
    congr 1
    rw [← ht, List.dropLast_concat, hdn]
    have hlen : (t ++ ['\n']).length - (['\n'] : List Char).length = t.length := by
      rw [List.length_append]; rfl
    rw [hlen, List.take_left]
  · rw [if_neg hsuf]
    have hlast : ¬ s.data.getLast? = some '\n' := by
      intro hl
      apply hsuf
      rw [goHasSuffix]
      apply List.isSuffixOf_iff_suffix.mpr
      exact ⟨s.data.dropLast, List.dropLast_append_getLast? '\n' hl⟩
    rw [if_neg hlast]

/-- A successful `varFileArgsLoop` appends exactly one `-var-file`/path
pair per `.tfvars` entry and nothing for any other entry. -/
theorem varFileArgsLoop_ok {td vd : String} :
    ∀ {files vf : List String}, varFileArgsLoop td vd files = Except.ok vf →
    vf = files.flatMap
      (fun f => if goHasSuffix f ".tfvars" then ["-var-file", relPath td vd f] else []) := by
  intro files
  induction files with
  | nil =>
    intro vf h
    injection h with h'
    rw [← h']
    rfl
  | cons f rest ih =>
    intro vf h
    rw [varFileArgsLoop] at h
    by_cases hsuf : goHasSuffix f ".tfvars"
    · rw [if_pos hsuf] at h
      rcases hrel : goRel td (join2 vd f) with e | p <;> rw [hrel] at h
      · cases h
      · rcases hloop : varFileArgsLoop td vd rest with e | r <;> rw [hloop] at h
        · cases h
        · injection h with h'
          rw [← h', List.flatMap_cons, if_pos hsuf, ← ih hloop]
          have hp : relPath td vd f = p := by rw [relPath, hrel]
          rw [hp]
          rfl
    · rw [if_neg hsuf] at h
      rw [List.flatMap_cons, if_neg hsuf, List.nil_append]
      exact ih h

/-- Counting the `-var-file` flags: one per `.tfvars` entry, provided no
computed path is itself the literal flag. -/
theorem count_varFile_flatMap (pathOf : String → String) :
    ∀ files : List String, (∀ f ∈ files, pathOf f ≠ "-var-file") →
    (files.flatMap
        (fun f => if goHasSuffix f ".tfvars" then ["-var-file", pathOf f] else [])).count
        "-var-file"
      = (files.filter (fun f => goHasSuffix f ".tfvars")).length := by
  intro files
  induction files with
  | nil => intro _; rfl
  | cons f rest ih =>
    intro hno
    have hrest := ih (fun g hg => hno g (List.mem_cons_of_mem _ hg))
    rw [List.flatMap_cons, List.filter_cons, List.count_append, hrest]
    by_cases hsuf : goHasSuffix f ".tfvars"
    · rw [if_pos hsuf, if_pos hsuf]
      have h1 : (["-var-file", pathOf f] : List String).count "-var-file" = 1 := by
        rw [show (["-var-file", pathOf f] : List String)
            = "-var-file" :: pathOf f :: [] from rfl]
        rw [List.count_cons, List.count_cons, List.count_nil,
          beq_false_of_ne (hno f (List.mem_cons_self _ _))]
        simp
      rw [h1, List.length_cons]
      omega
    · rw [if_neg hsuf, if_neg hsuf, List.count_nil]
      omega

/-- The characters of `formatVars`. -/
theorem formatVars_data (inputs : List (String × VarValue)) :
    (formatVars inputs).data =
      (inputs.map (fun nv => '\n' :: (nv.1.data ++ '=' :: (renderVarValue nv.2).data))).flatten := by
  rw [formatVars, formatVars_foldl_data]
  rfl

/-! ## Helper lemmas about the executor -/

/-- When the single runner invocation of the shared command logic fails,
the returned error is the original message in debug mode and the fixed
redacted message otherwise. -/
theorem runTF_fail_result (e : Executor) (env : Env) (args envs : List String)
    (m : String) (c : RunCall)
    (htr : (e.runTFCommandWithEnvs env args envs).2 = [c])
    (hex : env.exec c = Except.error m) :
    (e.runTFCommandWithEnvs env args envs).1 = some (if e.debug then m else redactedError) := by
  rw [Executor.runTFCommandWithEnvs] at htr ⊢
  rcases hV : env.getVarsDir with eV | vd <;> simp only [hV] at htr ⊢
  · exact List.noConfusion htr
  rcases hT : env.getTerraformDir with eT | td <;> simp only [hT] at htr ⊢
  · exact List.noConfusion htr
  rcases hR : goRel td (join2 vd "terraform.tfstate") with eR | rp <;>
    simp only [hR] at htr ⊢
  · exact List.noConfusion htr
  rcases hF : env.readVarsDir with eF | files <;> simp only [hF] at htr ⊢
  · exact List.noConfusion htr
  rcases hL : varFileArgsLoop td vd files with eL | extra <;> simp only [hL] at htr ⊢
  · exact List.noConfusion htr
  rcases hE : env.exec ⟨false, td, args ++ ["-state", rp] ++ extra, some envs, e.debug⟩
      with eE | val <;> simp only [hE] at htr ⊢
  · have hc : c = ⟨false, td, args ++ ["-state", rp] ++ extra, some envs, e.debug⟩ :=
      (List.cons.inj htr).1.symm
    rw [hc, hE] at hex
    injection hex with hm
    rw [hm]
  · have hc : c = ⟨false, td, args ++ ["-state", rp] ++ extra, some envs, e.debug⟩ :=
      (List.cons.inj htr).1.symm
    rw [hc, hE] at hex
    cases hex

/-! ## Claim theorems -/

/-- Claim C2: when the runner invocation made by `Apply` or `Destroy`
fails and the executor's debug flag is false, the returned error is the
fixed redacted message, independent of the original error text; with the
debug flag true, the original error is returned verbatim. -/
theorem apply_destroy_redaction (e : Executor) (env : Env)
    (creds : List (String × String)) (m : String) (c : RunCall) :
    ((Executor.Apply e env creds).2 = [c] → env.exec c = Except.error m →
      (Executor.Apply e env creds).1 = some (if e.debug then m else redactedError)) ∧
    ((Executor.Destroy e env creds).2 = [c] → env.exec c = Except.error m →
      (Executor.Destroy e env creds).1 = some (if e.debug then m else redactedError)) := by
  constructor
  · intro htr hex
    exact runTF_fail_result e env
      (["apply", "--auto-approve"] ++ creds.flatMap (fun kv => ["-var", kv.1 ++ "=" ++ kv.2]))
      [] m c htr hex
  · intro htr hex
    exact runTF_fail_result e env
      (["destroy", "-force"] ++ creds.flatMap (fun kv => ["-var", kv.1 ++ "=" ++ kv.2]))
      ["TF_WARN_OUTPUT_ERRORS=1"] m c htr hex

/-- Witness for C2: in the concrete failing environment, with debug
disabled, `Apply` returns exactly the redacted message. -/
theorem apply_destroy_redaction_witness :
    (Executor.Apply ⟨false⟩ envFail []).2 =
      [⟨false, "/a/terraform",
        ["apply", "--auto-approve", "-state", "../vars/terraform.tfstate",
          "-var-file", "../vars/a.tfvars", "-var-file", "../vars/b.tfvars"],
        some [], false⟩] ∧
    (Executor.Apply ⟨false⟩ envFail []).1 = some redactedError := by
  refine ⟨by decide, ?_⟩
  exact (apply_destroy_redaction ⟨false⟩ envFail [] "boom"
    ⟨false, "/a/terraform",
      ["apply", "--auto-approve", "-state", "../vars/terraform.tfstate",
        "-var-file", "../vars/a.tfvars", "-var-file", "../vars/b.tfvars"],
      some [], false⟩).1 (by decide) rfl

/-- Claim C7: when the `show` subcommand run by `IsPaved` succeeds,
`IsPaved` returns `false` when the captured output is exactly the literal
`"No state."` and `true` for every other captured output. -/
theorem isPaved_no_state_literal (e : Executor) (env : Env) (td vd s0 out : String)
    (hT : env.getTerraformDir = Except.ok td) (hV : env.getVarsDir = Except.ok vd)
    (hInit : env.exec ⟨false, td, ["init"], none, false⟩ = Except.ok s0)
    (hShow : env.exec ⟨true, td,
        ["show"] ++ (if env.statTfstate then ["-state", join2 vd "terraform.tfstate"] else []),
        none, true⟩ = Except.ok out) :
    (out = "No state." → (Executor.IsPaved e env).1 = Except.ok false) ∧
    (out ≠ "No state." → (Executor.IsPaved e env).1 = Except.ok true) := by
  constructor
  · intro heq
    simp only [Executor.IsPaved, hT, hV, hInit, hShow, if_pos heq]
  · intro hne
    simp only [Executor.IsPaved, hT, hV, hInit, hShow, if_neg hne]

/-- Witness for C7: the literal `"No state."` yields `false`; any other
output (here `"resource"`) yields `true`. -/
theorem isPaved_no_state_literal_witness :
    (Executor.IsPaved ⟨false⟩ (envOut "No state.")).1 = Except.ok false ∧
    (Executor.IsPaved ⟨false⟩ (envOut "resource")).1 = Except.ok true := by
  constructor
  · exact (isPaved_no_state_literal ⟨false⟩ (envOut "No state.") "/a/terraform" "/a/vars"
      "No state." "No state." rfl rfl rfl rfl).1 rfl
  · exact (isPaved_no_state_literal ⟨false⟩ (envOut "resource") "/a/terraform" "/a/vars"
      "resource" "resource" rfl rfl rfl rfl).2 (by decide)

/-- Claim C8: when its subprocess invocations succeed, `Output` returns
the captured text with exactly one trailing newline removed when present,
and unchanged otherwise. -/
theorem output_trims_one_trailing_newline (e : Executor) (env : Env)
    (name td vd s0 out : String)
    (hT : env.getTerraformDir = Except.ok td) (hV : env.getVarsDir = Except.ok vd)
    (hInit : env.exec ⟨false, td, ["init"], none, e.debug⟩ = Except.ok s0)
    (hMain : env.exec ⟨true, td,
        ["output", name] ++
          (if env.statTfstate then ["-state", join2 vd "terraform.tfstate"] else []),
        none, true⟩ = Except.ok out) :
    (out.data.getLast? = some '\n' →
      (Executor.Output e env name).1 = Except.ok (String.mk out.data.dropLast)) ∧
    (out.data.getLast? ≠ some '\n' → (Executor.Output e env name).1 = Except.ok out) := by
  have hres : (Executor.Output e env name).1 = Except.ok (goTrimSuffix out "\n") := by
    simp only [Executor.Output, hT, hV, hInit, hMain]
  rw [goTrimSuffix_newline] at hres
  constructor
  · intro hl
    rw [hres, if_pos hl]
  · intro hl
    rw [hres, if_neg hl]

/-- Witness for C8: captured `"bar\n"` yields `"bar"`, captured
`"bar\n\n"` yields `"bar\n"`, and text without a trailing newline is
returned unchanged. -/
theorem output_trims_one_trailing_newline_witness :
    (Executor.Output ⟨false⟩ (envOut "bar\n") "foo").1 = Except.ok "bar" ∧
    (Executor.Output ⟨false⟩ (envOut "bar\n\n") "foo").1 = Except.ok "bar\n" ∧
    (Executor.Output ⟨false⟩ (envOut "bar") "foo").1 = Except.ok "bar" := by
  refine ⟨?_, ?_, ?_⟩
  · have h := (output_trims_one_trailing_newline ⟨false⟩ (envOut "bar\n") "foo"
      "/a/terraform" "/a/vars" "bar\n" "bar\n" rfl rfl rfl rfl).1 (by decide)
    have he : String.mk ("bar\n" : String).data.dropLast = "bar" := by decide
    rw [he] at h
    exact h
  · have h := (output_trims_one_trailing_newline ⟨false⟩ (envOut "bar\n\n") "foo"
      "/a/terraform" "/a/vars" "bar\n\n" "bar\n\n" rfl rfl rfl rfl).1 (by decide)
    have he : String.mk ("bar\n\n" : String).data.dropLast = "bar\n" := by decide
    rw [he] at h
    exact h
  · exact (output_trims_one_trailing_newline ⟨false⟩ (envOut "bar") "foo"
      "/a/terraform" "/a/vars" "bar" "bar" rfl rfl rfl rfl).2 (by decide)

/-- Claim C9: `Outputs` and `IsPaved` invoke `init` with the debug
argument fixed to `false`, `Output` invokes `init` with the configured
debug flag, and every output-capturing invocation in `Output`, `Outputs`,
`IsPaved` and `Version` passes debug as `true`. -/
theorem init_and_capture_debug_flags (e : Executor) (env : Env) (name td vd : String)
    (hT : env.getTerraformDir = Except.ok td) (hV : env.getVarsDir = Except.ok vd) :
    (Executor.Outputs e env).2.head? = some ⟨false, td, ["init"], none, false⟩ ∧
    (Executor.IsPaved e env).2.head? = some ⟨false, td, ["init"], none, false⟩ ∧
    (Executor.Output e env name).2.head? = some ⟨false, td, ["init"], none, e.debug⟩ ∧
    (∀ c ∈ (Executor.Output e env name).2, c.toBuffer = true → c.debug = true) ∧
    (∀ c ∈ (Executor.Outputs e env).2, c.toBuffer = true → c.debug = true) ∧
    (∀ c ∈ (Executor.IsPaved e env).2, c.toBuffer = true → c.debug = true) ∧
    (Executor.Version e env).2 = [⟨true, "/tmp", ["version"], none, true⟩] := by
  refine ⟨?_, ?_, ?_, ?_, ?_, ?_, ?_⟩
  · simp only [Executor.Outputs, hT, hV]
    repeat' split
    all_goals rfl
  · simp only [Executor.IsPaved, hT, hV]
    repeat' split
    all_goals rfl
  · simp only [Executor.Output, hT, hV]
    repeat' split
    all_goals rfl
  · simp only [Executor.Output, hT, hV]
    repeat' split
    all_goals
      intro c hc
      simp only [List.mem_cons, List.not_mem_nil, or_false] at hc
      first
      | (rcases hc with rfl | rfl
         · exact fun h => Bool.noConfusion h
         · exact fun _ => rfl)
      | (rcases hc with rfl
         exact fun h => Bool.noConfusion h)
  · simp only [Executor.Outputs, hT, hV]
    repeat' split
    all_goals
      intro c hc
      simp only [List.mem_cons, List.not_mem_nil, or_false] at hc
      first
      | (rcases hc with rfl | rfl
         · exact fun h => Bool.noConfusion h
         · exact fun _ => rfl)
      | (rcases hc with rfl
         exact fun h => Bool.noConfusion h)
  · simp only [Executor.IsPaved, hT, hV]
    repeat' split
    all_goals
      intro c hc
      simp only [List.mem_cons, List.not_mem_nil, or_false] at hc
      first
      | (rcases hc with rfl | rfl
         · exact fun h => Bool.noConfusion h
         · exact fun _ => rfl)
      | (rcases hc with rfl
         exact fun h => Bool.noConfusion h)
  · simp only [Executor.Version]
    split
    all_goals first | rfl | (split; all_goals rfl)

/-- Witness for C9: concrete traces of the four commands in the healthy
environment, showing the debug flag of every invocation. -/
theorem init_and_capture_debug_flags_witness :
    (Executor.Outputs ⟨true⟩ envOk).2.head? = some ⟨false, "/a/terraform", ["init"], none, false⟩ ∧
    (Executor.IsPaved ⟨true⟩ envOk).2.head? = some ⟨false, "/a/terraform", ["init"], none, false⟩ ∧
    (Executor.Output ⟨true⟩ envOk "x").2.head? =
      some ⟨false, "/a/terraform", ["init"], none, (⟨true⟩ : Executor).debug⟩ ∧
    (∀ c ∈ (Executor.Output ⟨true⟩ envOk "x").2, c.toBuffer = true → c.debug = true) ∧
    (∀ c ∈ (Executor.Outputs ⟨true⟩ envOk).2, c.toBuffer = true → c.debug = true) ∧
    (∀ c ∈ (Executor.IsPaved ⟨true⟩ envOk).2, c.toBuffer = true → c.debug = true) ∧
    (Executor.Version ⟨true⟩ envOk).2 = [⟨true, "/tmp", ["version"], none, true⟩] :=
  init_and_capture_debug_flags ⟨true⟩ envOk "x" "/a/terraform" "/a/vars" rfl rfl

/-- Counterexample for C1: with the working directory `/a/terraform` and
vars directory `/a/vars`, the `-state` argument passed by `Output` is the
joined path `/a/vars/terraform.tfstate`, which differs from the path
relative to the working directory, `../vars/terraform.tfstate`. -/
theorem output_state_flag_not_relative_cex :
    (Executor.Output ⟨false⟩ envOk "x").2 =
      [⟨false, "/a/terraform", ["init"], none, false⟩,
       ⟨true, "/a/terraform", ["output", "x", "-state", "/a/vars/terraform.tfstate"],
         none, true⟩] ∧
    goRel "/a/terraform" (join2 "/a/vars" "terraform.tfstate") =
      Except.ok "../vars/terraform.tfstate" ∧
    ("/a/vars/terraform.tfstate" : String) ≠ "../vars/terraform.tfstate" := by
  refine ⟨by decide, by decide, by decide⟩

/-- Claim C1 (amended): in `Output`, `Outputs` and `IsPaved`, when the
stat of `terraform.tfstate` fails the argument list contains no `-state`
flag, and when it succeeds the list ends with `-state` followed by
`filepath.Join(varsDir, "terraform.tfstate")` — the state file path under
the vars directory, not relativized to the working directory. -/
theorem statePointer_joins_varsDir (e : Executor) (env : Env) (name td vd : String)
    (hT : env.getTerraformDir = Except.ok td) (hV : env.getVarsDir = Except.ok vd) :
    (∀ c ∈ (Executor.Output e env name).2, c.args = ["init"] ∨
      c.args = ["output", name] ++
        (if env.statTfstate then ["-state", join2 vd "terraform.tfstate"] else [])) ∧
    (∀ c ∈ (Executor.Outputs e env).2, c.args = ["init"] ∨
      c.args = ["output", "--json"] ++
        (if env.statTfstate then ["-state", join2 vd "terraform.tfstate"] else [])) ∧
    (∀ c ∈ (Executor.IsPaved e env).2, c.args = ["init"] ∨
      c.args = ["show"] ++
        (if env.statTfstate then ["-state", join2 vd "terraform.tfstate"] else [])) := by
  refine ⟨?_, ?_, ?_⟩
  · simp only [Executor.Output, hT, hV]
    repeat' split
    all_goals
      intro c hc
      simp only [List.mem_cons, List.not_mem_nil, or_false] at hc
      first
      | (rcases hc with rfl | rfl
         · exact Or.inl rfl
         · exact Or.inr rfl)
      | (rcases hc with rfl
         exact Or.inl rfl)
  · simp only [Executor.Outputs, hT, hV]
    repeat' split
    all_goals
      intro c hc
      simp only [List.mem_cons, List.not_mem_nil, or_false] at hc
      first
      | (rcases hc with rfl | rfl
         · exact Or.inl rfl
         · exact Or.inr rfl)
      | (rcases hc with rfl
         exact Or.inl rfl)
  · simp only [Executor.IsPaved, hT, hV]
    repeat' split
    all_goals
      intro c hc
      simp only [List.mem_cons, List.not_mem_nil, or_false] at hc
      first
      | (rcases hc with rfl | rfl
         · exact Or.inl rfl
         · exact Or.inr rfl)
      | (rcases hc with rfl
         exact Or.inl rfl)

/-- Witness for C1 (amended): with the state file present the capture
call carries `-state /a/vars/terraform.tfstate`; with it absent the
argument lists carry no `-state`. -/
theorem statePointer_joins_varsDir_witness :
    (∀ c ∈ (Executor.Output ⟨false⟩ envOk "x").2, c.args = ["init"] ∨
      c.args = ["output", "x"] ++
        (if envOk.statTfstate then ["-state", join2 "/a/vars" "terraform.tfstate"] else [])) ∧
    (∀ c ∈ (Executor.Output ⟨false⟩ envNoState "x").2, c.args = ["init"] ∨
      c.args = ["output", "x"] ++
        (if envNoState.statTfstate then ["-state", join2 "/a/vars" "terraform.tfstate"]
         else [])) := by
  constructor
  · exact (statePointer_joins_varsDir ⟨false⟩ envOk "x" "/a/terraform" "/a/vars" rfl rfl).1
  · exact (statePointer_joins_varsDir ⟨false⟩ envNoState "x" "/a/terraform" "/a/vars"
      rfl rfl).1

/-- Counterexample for C4: a runner failure in `Version` is returned with
no command-specific prefix — the result is exactly the original error
text `"boom"` (contrast `Init`, which does wrap it). -/
theorem version_error_not_wrapped_cex :
    (Executor.Version ⟨false⟩ envFail).1 = Except.error "boom" ∧
    (Executor.Init ⟨false⟩ envFail).1 = some ("Run terraform init: " ++ "boom") := by
  exact ⟨rfl, rfl⟩

/-- Claim C4 (amended): for `Init`, `Output`, `Outputs` and `IsPaved`, a
runner failure yields an error wrapped with a command-specific prefix
carrying the original error text, for both values of the debug flag;
`Version` alone returns the runner's error unmodified, with no prefix. -/
theorem subprocess_error_wrapping (e : Executor) (env : Env) (name td vd s0 m : String)
    (hT : env.getTerraformDir = Except.ok td) (hV : env.getVarsDir = Except.ok vd) :
    (env.exec ⟨false, td, ["init"], none, e.debug⟩ = Except.error m →
      (Executor.Init e env).1 = some ("Run terraform init: " ++ m)) ∧
    (env.exec ⟨false, td, ["init"], none, e.debug⟩ = Except.error m →
      (Executor.Output e env name).1 =
        Except.error ("Run terraform init in terraform dir: " ++ m)) ∧
    (env.exec ⟨false, td, ["init"], none, e.debug⟩ = Except.ok s0 →
      env.exec ⟨true, td, ["output", name] ++
          (if env.statTfstate then ["-state", join2 vd "terraform.tfstate"] else []),
          none, true⟩ = Except.error m →
      (Executor.Output e env name).1 =
        Except.error ("Run terraform output -state: " ++ m)) ∧
    (env.exec ⟨false, td, ["init"], none, false⟩ = Except.error m →
      (Executor.Outputs e env).1 =
        Except.error ("Run terraform init in terraform dir: " ++ m)) ∧
    (env.exec ⟨false, td, ["init"], none, false⟩ = Except.ok s0 →
      env.exec ⟨true, td, ["output", "--json"] ++
          (if env.statTfstate then ["-state", join2 vd "terraform.tfstate"] else []),
          none, true⟩ = Except.error m →
      (Executor.Outputs e env).1 =
        Except.error ("Run terraform output --json in vars dir: " ++ m)) ∧
    (env.exec ⟨false, td, ["init"], none, false⟩ = Except.error m →
      (Executor.IsPaved e env).1 =
        Except.error ("Run terraform init in terraform dir: " ++ m)) ∧
    (env.exec ⟨false, td, ["init"], none, false⟩ = Except.ok s0 →
      env.exec ⟨true, td, ["show"] ++
          (if env.statTfstate then ["-state", join2 vd "terraform.tfstate"] else []),
          none, true⟩ = Except.error m →
      (Executor.IsPaved e env).1 = Except.error ("Run terraform show: " ++ m)) ∧
    (env.exec ⟨true, "/tmp", ["version"], none, true⟩ = Except.error m →
      (Executor.Version e env).1 = Except.error m) := by
  refine ⟨?_, ?_, ?_, ?_, ?_, ?_, ?_, ?_⟩
  · intro hI
    simp only [Executor.Init, hT, hI]
  · intro hI
    simp only [Executor.Output, hT, hV, hI]
  · intro hI hM
    simp only [Executor.Output, hT, hV, hI, hM]
  · intro hI
    simp only [Executor.Outputs, hT, hV, hI]
  · intro hI hM
    simp only [Executor.Outputs, hT, hV, hI, hM]
  · intro hI
    simp only [Executor.IsPaved, hT, hV, hI]
  · intro hI hM
    simp only [Executor.IsPaved, hT, hV, hI, hM]
  · intro hVer
    simp only [Executor.Version, hVer]

/-- Witness for C4 (amended): concrete wrapped errors for the capture
stages of `Output`, `Outputs`, `IsPaved`, the verbatim error of
`Version`, and the wrapped error of `Init`. -/
theorem subprocess_error_wrapping_witness :
    (Executor.Output ⟨false⟩ envMixed "x").1 =
      Except.error ("Run terraform output -state: " ++ "boom") ∧
    (Executor.Outputs ⟨false⟩ envMixed).1 =
      Except.error ("Run terraform output --json in vars dir: " ++ "boom") ∧
    (Executor.IsPaved ⟨false⟩ envMixed).1 =
      Except.error ("Run terraform show: " ++ "boom") ∧
    (Executor.Version ⟨false⟩ envMixed).1 = Except.error "boom" ∧
    (Executor.Init ⟨false⟩ envFail).1 = some ("Run terraform init: " ++ "boom") := by
  refine ⟨?_, ?_, ?_, ?_, ?_⟩
  · exact (subprocess_error_wrapping ⟨false⟩ envMixed "x" "/a/terraform" "/a/vars"
      "" "boom" rfl rfl).2.2.1 (by decide) (by decide)
  · exact (subprocess_error_wrapping ⟨false⟩ envMixed "x" "/a/terraform" "/a/vars"
      "" "boom" rfl rfl).2.2.2.2.1 (by decide) (by decide)
  · exact (subprocess_error_wrapping ⟨false⟩ envMixed "x" "/a/terraform" "/a/vars"
      "" "boom" rfl rfl).2.2.2.2.2.2.1 (by decide) (by decide)
  · exact (subprocess_error_wrapping ⟨false⟩ envMixed "x" "/a/terraform" "/a/vars"
      "" "boom" rfl rfl).2.2.2.2.2.2.2 (by decide)
  · exact (subprocess_error_wrapping ⟨false⟩ envFail "x" "/a/terraform" "/a/vars"
      "" "boom" rfl rfl).1 rfl

/-- Claim C5: in any input mapping, each scalar string entry is rendered
on its line double-quoted, with no raw newline in the rendered value, and
every embedded newline appearing as the literal backslash-n sequence. -/
theorem formatVars_scalar_newline_escape (inputs : List (String × VarValue))
    (name s : String) (h : (name, VarValue.str s) ∈ inputs) :
    (∃ pre post, (formatVars inputs).data =
      pre ++ ('\n' :: (name.data ++ '=' :: (renderVarValue (VarValue.str s)).data)) ++ post) ∧
    (renderVarValue (VarValue.str s)).data.head? = some '"' ∧
    (renderVarValue (VarValue.str s)).data.getLast? = some '"' ∧
    '\n' ∉ (renderVarValue (VarValue.str s)).data ∧
    (∀ l₁ l₂ : List Char, s.data = l₁ ++ '\n' :: l₂ →
      (renderVarValue (VarValue.str s)).data =
        '"' :: (escListNl l₁ ++ '\\' :: 'n' :: (escListNl l₂ ++ ['"']))) := by
  obtain ⟨h1, h2, h3⟩ := renderStr_props s
  refine ⟨?_, h1, h2, h3, fun l₁ l₂ hd => renderStr_decomp s l₁ l₂ hd⟩
  obtain ⟨u, t, hu⟩ := List.mem_iff_append.mp h
  subst hu
  rw [formatVars_data, List.map_append, List.flatten_append, List.map_cons,
    List.flatten_cons]
  exact ⟨(u.map (fun nv => '\n' :: (nv.1.data ++ '=' :: (renderVarValue nv.2).data))).flatten,
    (t.map (fun nv => '\n' :: (nv.1.data ++ '=' :: (renderVarValue nv.2).data))).flatten,
    by simp [List.append_assoc]⟩

/-- Witness for C5: the mapping `a = "l1\nl2"`; the rendered scalar shows
the escaped sequence in place of the newline. -/
theorem formatVars_scalar_newline_escape_witness :
    ("a", VarValue.str "l1\nl2") ∈ [("a", VarValue.str "l1\nl2")] ∧
    (renderVarValue (VarValue.str "l1\nl2")).data =
      '"' :: (escListNl ("l1" : String).data ++
        '\\' :: 'n' :: (escListNl ("l2" : String).data ++ ['"'])) := by
  refine ⟨List.mem_cons_self _ _, ?_⟩
  exact (formatVars_scalar_newline_escape [("a", VarValue.str "l1\nl2")] "a" "l1\nl2"
    (List.mem_cons_self _ _)).2.2.2.2 ("l1" : String).data ("l2" : String).data (by decide)

/-- Claim C10: the formatter yields the empty string on the empty mapping
and otherwise one `name=value` segment per entry, each preceded (not
followed) by a single newline, so the text begins with a newline and
never ends with one. -/
theorem formatVars_segments_shape (inputs : List (String × VarValue)) :
    (inputs = [] → formatVars inputs = "") ∧
    (inputs ≠ [] →
      (formatVars inputs).data =
        (inputs.map (fun nv => '\n' :: (nv.1.data ++ '=' :: (renderVarValue nv.2).data))).flatten ∧
      (formatVars inputs).data.head? = some '\n' ∧
      (formatVars inputs).data.getLast? ≠ some '\n') := by
  constructor
  · intro h
    subst h
    rfl
  · intro hne
    refine ⟨formatVars_data inputs, ?_, ?_⟩
    · rcases inputs with _ | ⟨nv, rest⟩
      · exact absurd rfl hne
      · rw [formatVars_data, List.map_cons, List.flatten_cons]
        rfl
    · rcases List.eq_nil_or_concat' inputs with hnil | ⟨init, p, hcat⟩
      · exact absurd hnil hne
      · subst hcat
        rw [formatVars_data, List.map_append, List.flatten_append, List.map_cons,
          List.map_nil, List.flatten_cons, List.flatten_nil, List.append_nil]
        have hfp : ('\n' :: (p.1.data ++ '=' :: (renderVarValue p.2).data)) ≠ [] :=
          List.cons_ne_nil _ _
        rw [List.getLast?_append_of_ne_nil _ hfp]
        have hBne : (renderVarValue p.2).data ≠ [] := by
          rcases renderVarValue_last p.2 with hq | hq
          · exact ne_nil_of_getLast?_some hq
          · exact ne_nil_of_getLast?_some hq
        have hshape : ('\n' :: (p.1.data ++ '=' :: (renderVarValue p.2).data))
            = (('\n' :: p.1.data) ++ ['=']) ++ (renderVarValue p.2).data := by
          simp
        rw [hshape, List.getLast?_append_of_ne_nil _ hBne]
        rcases renderVarValue_last p.2 with hq | hq <;> rw [hq] <;> decide

/-- Witness for C10: a two-entry mapping begins with a newline, does not
end with one, and the empty mapping yields the empty string. -/
theorem formatVars_segments_shape_witness :
    formatVars [] = "" ∧
    (formatVars [("a", VarValue.str "x"), ("b", VarValue.strList ["p", "q"])]).data.head?
      = some '\n' ∧
    (formatVars [("a", VarValue.str "x"), ("b", VarValue.strList ["p", "q"])]).data.getLast?
      ≠ some '\n' := by
  refine ⟨(formatVars_segments_shape []).1 rfl, ?_, ?_⟩
  · exact ((formatVars_segments_shape
      [("a", VarValue.str "x"), ("b", VarValue.strList ["p", "q"])]).2
      (List.cons_ne_nil _ _)).2.1
  · exact ((formatVars_segments_shape
      [("a", VarValue.str "x"), ("b", VarValue.strList ["p", "q"])]).2
      (List.cons_ne_nil _ _)).2.2

/-- A semantic-version-shaped string contains a dot. -/
theorem semverShaped_dot_mem {l : List Char} (h : SemverShaped l) : '.' ∈ l := by
  obtain ⟨d₁, d₂, d₃, _, _, _, hl⟩ := h
  rw [hl]
  exact List.mem_append.mpr (Or.inl (List.mem_append.mpr
    (Or.inr (List.mem_cons_self _ _))))

/-- Counterexample for C3: on captured output `"1x2y3"` — which contains
no dot, hence no digits-dot-digits-dot-digits substring — `Version`
succeeds with `"1x2y3"` instead of failing with a parse error, because
the dots of the source pattern are unescaped. -/
theorem version_unescaped_dot_cex :
    (Executor.Version ⟨false⟩ (envOut "1x2y3")).1 = Except.ok "1x2y3" ∧
    '.' ∉ ("1x2y3" : String).data := by
  exact ⟨by decide, by decide⟩

/-- Claim C3 (amended): `Version` returns the leftmost greedy match of
digits, any non-newline character, digits, any non-newline character,
digits (the dot positions of the source pattern `\d+.\d+.\d+` are
unescaped and match any non-newline character), and returns the parse
error exactly when the captured output contains no substring of that
relaxed shape. -/
theorem version_finds_relaxed_triple (e : Executor) (env : Env) (out : String)
    (hRun : env.exec ⟨true, "/tmp", ["version"], none, true⟩ = Except.ok out) :
    (∀ v, (Executor.Version e env).1 = Except.ok v →
      TripleShaped v.data ∧ ∃ pre post, out.data = pre ++ v.data ++ post) ∧
    ((Executor.Version e env).1 = Except.error "Terraform version could not be parsed" ↔
      ¬ ∃ pre mid post, out.data = pre ++ mid ++ post ∧ TripleShaped mid) := by
  rcases hf : findDigitTriple out with _ | v
  · have hres : (Executor.Version e env).1 =
        Except.error "Terraform version could not be parsed" := by
      simp only [Executor.Version, hRun, hf]
    have hft : findTriple out.data = none := by
      rw [findDigitTriple] at hf
      rcases hft : findTriple out.data with _ | l
      · rfl
      · rw [hft] at hf
        cases hf
    constructor
    · intro v hv
      rw [hres] at hv
      cases hv
    · rw [hres]
      exact ⟨fun _ => findTriple_none hft, fun _ => rfl⟩
  · have hres : (Executor.Version e env).1 = Except.ok v := by
      simp only [Executor.Version, hRun, hf]
    have hft : ∃ l, findTriple out.data = some l ∧ v = String.mk l := by
      rw [findDigitTriple] at hf
      rcases hft : findTriple out.data with _ | l <;> rw [hft] at hf
      · cases hf
      · injection hf with hf'
        exact ⟨l, rfl, hf'.symm⟩
    obtain ⟨l, hfl, hvl⟩ := hft
    obtain ⟨hshape, pre, post, hdec⟩ := findTriple_some hfl
    constructor
    · intro v' hv'
      rw [hres] at hv'
      injection hv' with hv''
      subst hv''
      subst hvl
      exact ⟨hshape, pre, post, hdec⟩
    · rw [hres]
      constructor
      · intro hcontra
        cases hcontra
      · intro hno
        exact absurd ⟨pre, l, post, hdec, hshape⟩ hno

/-- Witness for C3 (amended): on `"Terraform v0.11.7\n"` the returned
match is `"0.11.7"`, of the relaxed shape and a substring of the
output. -/
theorem version_finds_relaxed_triple_witness :
    (Executor.Version ⟨false⟩ (envOut "Terraform v0.11.7\n")).1 = Except.ok "0.11.7" ∧
    (TripleShaped ("0.11.7" : String).data ∧
      ∃ pre post, ("Terraform v0.11.7\n" : String).data =
        pre ++ ("0.11.7" : String).data ++ post) := by
  refine ⟨by decide, ?_⟩
  exact (version_finds_relaxed_triple ⟨false⟩ (envOut "Terraform v0.11.7\n")
    "Terraform v0.11.7\n" rfl).1 "0.11.7" (by decide)

/-- Claim C6: the argument list assembled by the shared command logic
carries exactly one `-var-file` flag (with the path relative to the
working directory) per vars-directory entry ending in `.tfvars`, and none
for entries with any other suffix. -/
theorem runTF_var_file_flags (e : Executor) (env : Env) (args envs : List String)
    (td vd rp : String) (files vf : List String)
    (hV : env.getVarsDir = Except.ok vd) (hT : env.getTerraformDir = Except.ok td)
    (hR : goRel td (join2 vd "terraform.tfstate") = Except.ok rp)
    (hF : env.readVarsDir = Except.ok files)
    (hL : varFileArgsLoop td vd files = Except.ok vf) :
    (∀ c ∈ (e.runTFCommandWithEnvs env args envs).2,
      c.args = args ++ ["-state", rp] ++
        files.flatMap (fun f => if goHasSuffix f ".tfvars"
          then ["-var-file", relPath td vd f] else [])) ∧
    ((∀ f ∈ files, relPath td vd f ≠ "-var-file") →
      (files.flatMap (fun f => if goHasSuffix f ".tfvars"
          then ["-var-file", relPath td vd f] else [])).count "-var-file"
        = (files.filter (fun f => goHasSuffix f ".tfvars")).length) := by
  constructor
  · intro c hc
    simp only [Executor.runTFCommandWithEnvs, hV, hT, hR, hF, hL] at hc
    rcases hE : env.exec ⟨false, td, args ++ ["-state", rp] ++ vf, some envs, e.debug⟩
      with eE | val <;> simp only [hE] at hc <;>
      simp only [List.mem_cons, List.not_mem_nil, or_false] at hc <;>
      subst hc <;>
      show args ++ ["-state", rp] ++ vf = _ <;>
      rw [varFileArgsLoop_ok hL]
  · intro hno
    exact count_varFile_flatMap (relPath td vd) files hno

/-- Witness for C6: the vars directory `a.tfvars`, `b.tfvars`,
`notes.txt` yields exactly two `-var-file` flags and the fully assembled
argument list of `Apply`. -/
theorem runTF_var_file_flags_witness :
    (∀ c ∈ (Executor.runTFCommandWithEnvs ⟨false⟩ envOk ["apply", "--auto-approve"] []).2,
      c.args = ["apply", "--auto-approve"] ++ ["-state", "../vars/terraform.tfstate"] ++
        (["a.tfvars", "b.tfvars", "notes.txt"].flatMap (fun f => if goHasSuffix f ".tfvars"
          then ["-var-file", relPath "/a/terraform" "/a/vars" f] else []))) ∧
    (["a.tfvars", "b.tfvars", "notes.txt"].flatMap (fun f => if goHasSuffix f ".tfvars"
        then ["-var-file", relPath "/a/terraform" "/a/vars" f] else [])).count "-var-file"
      = 2 := by
  have h := runTF_var_file_flags ⟨false⟩ envOk ["apply", "--auto-approve"] []
    "/a/terraform" "/a/vars" "../vars/terraform.tfstate"
    ["a.tfvars", "b.tfvars", "notes.txt"]
    ["-var-file", "../vars/a.tfvars", "-var-file", "../vars/b.tfvars"]
    rfl rfl (by decide) rfl (by decide)
  refine ⟨h.1, ?_⟩
  rw [h.2 (by decide)]
  decide

end Bbl
